import Mathlib

/-!
# Verification of the proxy-configuration resolution library

Shallow embedding of the `proxy-cfg` crate: the `ProxyConfig` data model,
the matcher (`use_proxy_for_address`, `get_proxy_for_url` in `lib.rs`), the
aggregator loop (`get_proxy_config` in `lib.rs`), the environment-variable
source (`env.rs`) and the sysconfig-file source (`sysconfig_proxy.rs`).

Strings are modelled as `List Char` (`Str`), so that every operation is a
structurally recursive, kernel-executable function; for an ASCII-oriented
format this agrees with Rust's byte-oriented `str` operations.
`HashMap<String, String>` is modelled as an association list with an
overwriting insert (`insertKV`); `HashSet<String>` as a list with a
membership-checking insert (`insertW`).  URL parsing (the external `url`
crate) is a parameter `parseHost : Str → Option Str` returning the host
component, `none` meaning the address does not parse as a URL with a host.
-/

/-- The model's string type: a list of characters. -/
abbrev Str := List Char

/-- Rust `str::to_lowercase` (character-wise). -/
def toLower (s : Str) : Str := s.map Char.toLower

/-- Rust `str::trim`: remove leading and trailing whitespace. -/
def trimStr (s : Str) : Str :=
  ((s.dropWhile Char.isWhitespace).reverse.dropWhile Char.isWhitespace).reverse

/-- Rust `str::split(sep)`: split on every occurrence of the character
`sep`; the empty string yields one empty piece, like Rust's `split`. -/
def splitOnChar (sep : Char) : Str → List Str
  | [] => [[]]
  | c :: rest =>
    if c = sep then [] :: splitOnChar sep rest
    else
      match splitOnChar sep rest with
      | h :: t => (c :: h) :: t
      | [] => [[c]]

/-- Modelled from the spec: `errors.rs` is not under `src/`; §7 of the spec
lists the error kinds `PlatformNotSupported`, `InvalidConfig` and `Io`
(the payload carried by the `Io` variant does not matter to any claim). -/
inductive Error where
  | platformNotSupported
  | invalidConfig
  | io
deriving DecidableEq, Repr

/-- `ProxyConfig` from `lib.rs`: scheme→endpoint map, bypass whitelist,
"skip dotless hostnames" flag. -/
structure ProxyConfig where
  proxies : List (Str × Str)
  whitelist : List Str
  exclude_simple : Bool
deriving DecidableEq, Repr

/-- `Default::default()` for `ProxyConfig`. -/
def defaultConfig : ProxyConfig :=
  { proxies := [], whitelist := [], exclude_simple := false }

/-- `HashMap::insert`: overwrite the value at an existing key, otherwise
add the binding. -/
def insertKV {α β : Type} [DecidableEq α] (k : α) (v : β) :
    List (α × β) → List (α × β)
  | [] => [(k, v)]
  | (k', v') :: rest =>
    if k' = k then (k, v) :: rest else (k', v') :: insertKV k v rest

/-- `HashMap::get`. -/
def lookupKV {α β : Type} [DecidableEq α] (k : α) :
    List (α × β) → Option β
  | [] => none
  | (k', v) :: rest => if k' = k then some v else lookupKV k rest

/-- `HashSet::insert`. -/
def insertW (s : Str) (l : List Str) : List Str :=
  if s ∈ l then l else l ++ [s]

/-- Decidable equality for `Except` outcomes, so that concrete runs of the
sources and the aggregator can be checked by `decide`. -/
instance {ε α : Type} [DecidableEq ε] [DecidableEq α] :
    DecidableEq (Except ε α)
  | .ok a, .ok b =>
    if h : a = b then .isTrue (h ▸ rfl)
    else .isFalse (fun hh => h (Except.noConfusion hh (fun h' => h')))
  | .ok _, .error _ => .isFalse (fun hh => Except.noConfusion hh)
  | .error _, .ok _ => .isFalse (fun hh => Except.noConfusion hh)
  | .error a, .error b =>
    if h : a = b then .isTrue (h ▸ rfl)
    else .isFalse (fun hh => h (Except.noConfusion hh (fun h' => h')))

/-! ## The matcher (`lib.rs`) -/

/-- `pattern.rfind('*')` followed by taking `pattern[pos + 1..]`: the
substring strictly after the rightmost `'*'`, or `none` when the pattern
contains no `'*'` at all. -/
def suffixAfterLastStar : Str → Option Str
  | [] => none
  | c :: rest =>
    match suffixAfterLastStar rest with
    | some s => some s
    | none => if c = '*' then some rest else none

/-- The closure inside `whitelist.iter().any(...)` in
`use_proxy_for_address` (`lib.rs` lines 55–62): a pattern matches when the
substring after its rightmost `'*'` is non-empty and the host ends with
it; a pattern without `'*'` never matches here. -/
def wildcardMatch (host pattern : Str) : Bool :=
  match suffixAfterLastStar pattern with
  | some suffix => !suffix.isEmpty && List.isSuffixOf suffix host
  | none => false

/-- The wildcard step of `use_proxy_for_address`: `any` over the
whitelist. -/
def wildcardBypass (whitelist : List Str) (host : Str) : Bool :=
  whitelist.any (wildcardMatch host)

/-- Host normalization at the top of `use_proxy_for_address` (`lib.rs`
lines 34–40): the URL's host when the address parses as a URL with a host,
otherwise the whole address; lowercased either way. -/
def normalizeHost (parseHost : Str → Option Str) (address : Str) : Str :=
  match parseHost address with
  | some h => toLower h
  | none => toLower address

/-- The body of `use_proxy_for_address` after host normalization (`lib.rs`
lines 42–66): dotless bypass, exact whitelist match, wildcard match, in
that order; `false` means bypass. -/
def hostDecision (cfg : ProxyConfig) (host : Str) : Bool :=
  if cfg.exclude_simple && !(host.contains '.') then false
  else if cfg.whitelist.contains host then false
  else if wildcardBypass cfg.whitelist host then false
  else true

/-- `ProxyConfig::use_proxy_for_address` (`lib.rs` lines 32–67). -/
def use_proxy_for_address (parseHost : Str → Option Str)
    (cfg : ProxyConfig) (address : Str) : Bool :=
  hostDecision cfg (normalizeHost parseHost address)

/-- `ProxyConfig::get_proxy_for_url` (`lib.rs` lines 69–78); the URL is
represented by its string form and its scheme. -/
def get_proxy_for_url (parseHost : Str → Option Str) (cfg : ProxyConfig)
    (urlStr scheme : Str) : Option Str :=
  if use_proxy_for_address parseHost cfg urlStr then
    (match lookupKV scheme cfg.proxies with
      | some p => some p
      | none => lookupKV "*".toList cfg.proxies).map toLower
  else
    none

/-! ## The environment-variable source (`env.rs`) -/

/-- One iteration of the `for (key, value) in vars` loop of
`env::get_proxy_config` (`env.rs` lines 9–23). -/
def Env.step (cfg : ProxyConfig) (kv : Str × Str) : ProxyConfig :=
  if List.isSuffixOf "_proxy".toList (toLower kv.1) then
    if (toLower kv.1).take ((toLower kv.1).length - 6) = "no".toList then
      { cfg with
        whitelist :=
          (splitOnChar ',' kv.2).foldl
            (fun wl piece =>
              if (trimStr piece).isEmpty then wl
              else insertW (toLower (trimStr piece)) wl)
            cfg.whitelist }
    else
      { cfg with
        proxies :=
          insertKV (toLower ((toLower kv.1).take ((toLower kv.1).length - 6)))
            kv.2 cfg.proxies }
  else
    cfg

/-- `env::get_proxy_config` (`env.rs` lines 5–30), over a snapshot of the
environment's name/value pairs. -/
def Env.get_proxy_config (vars : List (Str × Str)) :
    Except Error (Option ProxyConfig) :=
  let cfg := vars.foldl Env.step defaultConfig
  if cfg.proxies.isEmpty then .ok none else .ok (some cfg)

/-! ## The sysconfig-file source (`sysconfig_proxy.rs`) -/

/-- `strip_after_quote` (`sysconfig_proxy.rs` lines 105–111): everything
before the first `'"'`, or the whole string when there is none. -/
def strip_after_quote (s : Str) : Str := s.takeWhile (fun c => c ≠ '"')

/-- `line.find("=\x22")` followed by splitting: `some (key, tail)` when the
line contains the two-character sequence `="`, where `key` is everything
before its first occurrence and `tail` everything after it. -/
def splitOnEqQuote : Str → Option (Str × Str)
  | [] => none
  | [_] => none
  | c :: d :: rest =>
    if c = '=' && d = '"' then some ([], rest)
    else
      match splitOnEqQuote (d :: rest) with
      | some (k, v) => some (c :: k, v)
      | none => none

/-- The loop of `read_key_value_pairs_from_file` (`sysconfig_proxy.rs`
lines 84–99), with the accumulated map explicit. -/
def Sysconfig.readAux :
    List Str → List (Str × Str) → Except Error (List (Str × Str))
  | [], acc => .ok acc
  | line :: rest, acc =>
    if line.isEmpty then Sysconfig.readAux rest acc
    else
      match splitOnEqQuote line with
      | some (key, tail) =>
        Sysconfig.readAux rest (insertKV key (strip_after_quote tail) acc)
      | none => .error .invalidConfig

/-- `read_key_value_pairs_from_file` (`sysconfig_proxy.rs` lines 80–102),
over the file's lines. -/
def Sysconfig.read_key_value_pairs (lines : List Str) :
    Except Error (List (Str × Str)) :=
  Sysconfig.readAux lines []

/-- One iteration of the `for scheme in schemes` loop of
`get_proxy_config_from_file` (`sysconfig_proxy.rs` lines 40–47). -/
def Sysconfig.addScheme (map : List (Str × Str)) (cfg : ProxyConfig)
    (scheme : Str) : ProxyConfig :=
  match lookupKV (scheme ++ "_PROXY".toList) map with
  | some proxy => { cfg with proxies := insertKV (toLower scheme) proxy cfg.proxies }
  | none => cfg

/-- The `NO_PROXY` handling of `get_proxy_config_from_file`
(`sysconfig_proxy.rs` lines 50–56). -/
def Sysconfig.addNoProxy (map : List (Str × Str)) (cfg : ProxyConfig) :
    ProxyConfig :=
  match lookupKV "NO_PROXY".toList map with
  | some np =>
    { cfg with
      whitelist :=
        (splitOnChar ',' np).foldl
          (fun wl piece => insertW (toLower (trimStr piece)) wl)
          cfg.whitelist }
  | none => cfg

/-- The `ProxyConfig` accumulated by `get_proxy_config_from_file` once
`PROXY_ENABLED="yes"` (`sysconfig_proxy.rs` lines 38–58). -/
def Sysconfig.buildConfig (map : List (Str × Str)) : ProxyConfig :=
  Sysconfig.addNoProxy map
    (["HTTP".toList, "HTTPS".toList, "FTP".toList].foldl
      (Sysconfig.addScheme map) defaultConfig)

/-- `get_proxy_config_from_file` (`sysconfig_proxy.rs` lines 22–59); the
file is `none` when the path does not exist, `some lines` otherwise. -/
def Sysconfig.get_proxy_config_from_file (file : Option (List Str)) :
    Except Error (Option ProxyConfig) :=
  match file with
  | none => .ok none
  | some lines =>
    match Sysconfig.read_key_value_pairs lines with
    | .error e => .error e
    | .ok map =>
      match lookupKV "PROXY_ENABLED".toList map with
      | some enabled =>
        if enabled = "yes".toList then .ok (some (Sysconfig.buildConfig map))
        else if enabled = "no".toList then .ok none
        else .error .invalidConfig
      | none => .error .invalidConfig

/-! ## The aggregator (`lib.rs`) -/

/-- The `for get_proxy_config in METHODS` loop of the crate-level
`get_proxy_config` (`lib.rs` lines 100–107) together with the final
`last_err` dispatch (lines 109–113); `last` is the `last_err` state. -/
def aggregateLoop :
    List (Except Error (Option ProxyConfig)) → Option Error →
      Except Error (Option ProxyConfig)
  | [], none => .ok none
  | [], some e => .error e
  | r :: rest, last =>
    match r with
    | .ok (some config) => .ok (some config)
    | .ok none => aggregateLoop rest last
    | .error e => aggregateLoop rest (some e)

/-- The crate-level `get_proxy_config` (`lib.rs` lines 94–114), over the
list of the sources' outcomes in `METHODS` order. -/
def get_proxy_config (methods : List (Except Error (Option ProxyConfig))) :
    Except Error (Option ProxyConfig) :=
  if methods.isEmpty then .error .platformNotSupported
  else aggregateLoop methods none

/-- The resolver for a build with the `env` and `sysconfig_proxy` sources
(the `METHODS` order of `lib.rs` lines 83–92): environment first, file
second. -/
def resolve (vars : List (Str × Str)) (file : Option (List Str)) :
    Except Error (Option ProxyConfig) :=
  get_proxy_config
    [Env.get_proxy_config vars, Sysconfig.get_proxy_config_from_file file]

/-- Spec-side predicate: the string contains the two-character sequence
`="` somewhere. -/
def containsEqQuote : Str → Bool
  | [] => false
  | [_] => false
  | c :: d :: rest => (c = '=' && d = '"') || containsEqQuote (d :: rest)

/-- A source outcome counting as a success for the aggregator: `Ok(Some(_))`. -/
def isSuccess : Except Error (Option ProxyConfig) → Bool
  | .ok (some _) => true
  | _ => false

/-- The value of `last_err` after the aggregator's loop has run over `rs`:
the error of the last faulting source, if any. -/
def lastFault (rs : List (Except Error (Option ProxyConfig))) : Option Error :=
  rs.foldl
    (fun acc r => match r with | .error e => some e | _ => acc) none

/-! ## Helper lemmas -/

theorem lookupKV_insertKV_self {α β : Type} [DecidableEq α] (k : α) (v : β)
    (m : List (α × β)) : lookupKV k (insertKV k v m) = some v := by
  induction m with
  | nil => simp [insertKV, lookupKV]
  | cons hd tl ih =>
    obtain ⟨k', v'⟩ := hd
    by_cases h : k' = k
    · simp [insertKV, lookupKV, h]
    · simp [insertKV, lookupKV, h, ih]

theorem lookupKV_insertKV_ne {α β : Type} [DecidableEq α] {k k' : α} (v : β)
    (m : List (α × β)) (h : k' ≠ k) :
    lookupKV k (insertKV k' v m) = lookupKV k m := by
  induction m with
  | nil => simp [insertKV, lookupKV, h]
  | cons hd tl ih =>
    obtain ⟨k'', v''⟩ := hd
    by_cases h2 : k'' = k'
    · simp [insertKV, lookupKV, h2, h]
    · simp only [insertKV, h2, if_false, lookupKV]
      by_cases h3 : k'' = k <;> simp [h3, ih]

theorem suffixAfterLastStar_eq_none {cs : Str} :
    suffixAfterLastStar cs = none ↔ '*' ∉ cs := by
  induction cs with
  | nil => simp [suffixAfterLastStar]
  | cons c rest ih =>
    cases h : suffixAfterLastStar rest with
    | some s =>
      have hmem : '*' ∈ rest := by
        by_contra hn
        rw [ih.mpr hn] at h
        cases h
      simp [suffixAfterLastStar, h, hmem]
    | none =>
      have hns : '*' ∉ rest := ih.mp h
      by_cases hc : c = '*'
      · simp [suffixAfterLastStar, h, hc]
      · simp [suffixAfterLastStar, h, hc, hns]
        intro h2
        exact hc h2.symm

theorem suffixAfterLastStar_append (pre : Str) {suf : Str} (h : '*' ∉ suf) :
    suffixAfterLastStar (pre ++ '*' :: suf) = some suf := by
  induction pre with
  | nil => simp [suffixAfterLastStar, suffixAfterLastStar_eq_none.mpr h]
  | cons c pre' ih => simp [suffixAfterLastStar, ih]

theorem suffixAfterLastStar_eq_some {cs suf : Str} :
    suffixAfterLastStar cs = some suf ↔
      ∃ pre, cs = pre ++ '*' :: suf ∧ '*' ∉ suf := by
  constructor
  · intro h
    induction cs with
    | nil => cases h
    | cons c rest ih =>
      cases h2 : suffixAfterLastStar rest with
      | some s =>
        rw [suffixAfterLastStar, h2] at h
        cases h
        obtain ⟨pre, hrest, hns⟩ := ih h2
        exact ⟨c :: pre, by simp [hrest], hns⟩
      | none =>
        rw [suffixAfterLastStar, h2] at h
        by_cases hc : c = '*'
        · rw [if_pos hc] at h
          cases h
          exact ⟨[], by simp [hc], suffixAfterLastStar_eq_none.mp h2⟩
        · rw [if_neg hc] at h
          cases h
  · rintro ⟨pre, rfl, hns⟩
    exact suffixAfterLastStar_append pre hns

theorem containsEqQuote_iff {cs : Str} :
    containsEqQuote cs = true ↔ ∃ a b : Str, cs = a ++ '=' :: '"' :: b := by
  induction cs with
  | nil =>
    simp only [containsEqQuote, Bool.false_eq_true, false_iff]
    rintro ⟨a, b, hab⟩
    cases a <;> simp at hab
  | cons c tail ih =>
    cases tail with
    | nil =>
      simp only [containsEqQuote, Bool.false_eq_true, false_iff]
      rintro ⟨a, b, hab⟩
      cases a with
      | nil => simp at hab
      | cons x a' =>
        simp only [List.cons_append, List.cons.injEq] at hab
        exact absurd hab.2 (by simp)
    | cons d rest =>
      simp only [containsEqQuote, Bool.or_eq_true, Bool.and_eq_true,
        decide_eq_true_eq, ih]
      constructor
      · rintro (⟨rfl, rfl⟩ | ⟨a, b, hab⟩)
        · exact ⟨[], rest, rfl⟩
        · exact ⟨c :: a, b, by simp [hab]⟩
      · rintro ⟨a, b, hab⟩
        cases a with
        | nil =>
          simp only [List.nil_append, List.cons.injEq] at hab
          exact Or.inl ⟨hab.1, hab.2.1⟩
        | cons x a' =>
          simp only [List.cons_append, List.cons.injEq] at hab
          exact Or.inr ⟨a', b, hab.2⟩

theorem splitOnEqQuote_eq_none {cs : Str} (h : containsEqQuote cs = false) :
    splitOnEqQuote cs = none := by
  induction cs with
  | nil => rfl
  | cons c tail ih =>
    cases tail with
    | nil => rfl
    | cons d rest =>
      simp only [containsEqQuote, Bool.or_eq_false_iff] at h
      simp [splitOnEqQuote, h.1, ih h.2]

theorem splitOnEqQuote_append {k : Str} (h : containsEqQuote k = false)
    (rest : Str) : splitOnEqQuote (k ++ '=' :: '"' :: rest) = some (k, rest) := by
  induction k with
  | nil => simp [splitOnEqQuote]
  | cons c tail ih =>
    cases tail with
    | nil =>
      have h2 : ('=' : Char) = '"' ↔ False := by simp
      simp [splitOnEqQuote, h2]
    | cons d tail' =>
      simp only [containsEqQuote, Bool.or_eq_false_iff] at h
      have hcd : (c = '=' && d = '"') = false := h.1
      simp only [List.cons_append] at ih ⊢
      rw [splitOnEqQuote, hcd]
      simp [ih h.2]

theorem strip_after_quote_append {v : Str} (h : '"' ∉ v) (junk : Str) :
    strip_after_quote (v ++ '"' :: junk) = v := by
  induction v with
  | nil => simp [strip_after_quote]
  | cons c v' ih =>
    simp only [List.mem_cons, not_or] at h
    have hc : c ≠ '"' := fun hh => h.1 hh.symm
    simp only [strip_after_quote, List.cons_append, List.takeWhile_cons]
    simp [hc, strip_after_quote] at ih ⊢
    exact ih h.2

theorem strip_after_quote_of_no_quote {v : Str} (h : '"' ∉ v) :
    strip_after_quote v = v := by
  induction v with
  | nil => rfl
  | cons c v' ih =>
    simp only [List.mem_cons, not_or] at h
    have hc : c ≠ '"' := fun hh => h.1 hh.symm
    simp only [strip_after_quote, List.takeWhile_cons] at ih ⊢
    simp [hc, ih h.2]
    intro x hx hxq
    exact h.2 (hxq ▸ hx)

theorem readAux_append (ls₁ ls₂ : List Str) (acc : List (Str × Str)) :
    Sysconfig.readAux (ls₁ ++ ls₂) acc =
      match Sysconfig.readAux ls₁ acc with
      | .ok m => Sysconfig.readAux ls₂ m
      | .error e => .error e := by
  induction ls₁ generalizing acc with
  | nil => simp [Sysconfig.readAux]
  | cons line rest ih =>
    by_cases he : line.isEmpty
    · simp only [List.cons_append, Sysconfig.readAux, he, if_true]
      exact ih acc
    · simp only [List.cons_append, Sysconfig.readAux, he, if_false]
      cases hs : splitOnEqQuote line with
      | some kv => exact ih _
      | none => rfl

theorem aggregateLoop_no_success
    (rs : List (Except Error (Option ProxyConfig))) (acc : Option Error)
    (h : ∀ r ∈ rs, isSuccess r = false) :
    aggregateLoop rs acc =
      match rs.foldl
          (fun a r => match r with | .error e => some e | _ => a) acc with
      | some e => .error e
      | none => .ok none := by
  induction rs generalizing acc with
  | nil => cases acc <;> rfl
  | cons r rest ih =>
    have hr : isSuccess r = false := h r (List.mem_cons_self r rest)
    have hrest : ∀ r' ∈ rest, isSuccess r' = false :=
      fun r' hr' => h r' (List.mem_cons_of_mem r hr')
    match r with
    | .ok (some c) => simp [isSuccess] at hr
    | .ok none => simpa [aggregateLoop, List.foldl] using ih acc hrest
    | .error e => simpa [aggregateLoop, List.foldl] using ih (some e) hrest

theorem aggregateLoop_first_success
    (xs ys : List (Except Error (Option ProxyConfig))) (c : ProxyConfig)
    (acc : Option Error) (h : ∀ r ∈ xs, isSuccess r = false) :
    aggregateLoop (xs ++ .ok (some c) :: ys) acc = .ok (some c) := by
  induction xs generalizing acc with
  | nil => rfl
  | cons r rest ih =>
    have hr : isSuccess r = false := h r (List.mem_cons_self r rest)
    have hrest : ∀ r' ∈ rest, isSuccess r' = false :=
      fun r' hr' => h r' (List.mem_cons_of_mem r hr')
    match r with
    | .ok (some c') => simp [isSuccess] at hr
    | .ok none => simpa [aggregateLoop] using ih acc hrest
    | .error e => simpa [aggregateLoop] using ih (some e) hrest

/-- Fold-fusion for the `NO_PROXY` loop of the environment source: the
inserted elements are exactly the trimmed, non-empty, lowercased pieces. -/
theorem env_whitelist_fusion (l : List Str) (wl : List Str) :
    l.foldl
        (fun wl piece =>
          if (trimStr piece).isEmpty then wl
          else insertW (toLower (trimStr piece)) wl)
        wl =
      (((l.map trimStr).filter (fun p => !p.isEmpty)).map toLower).foldl
        (fun wl u => insertW u wl) wl := by
  induction l generalizing wl with
  | nil => rfl
  | cons p l' ih =>
    by_cases hp : (trimStr p).isEmpty
    · simp only [List.foldl, hp] at ih ⊢
      simp at ih
      simp [hp]
      exact ih wl
    · simp only [List.foldl, hp] at ih ⊢
      simp at ih
      simp [hp]
      exact ih _

/-- Processing lines none of which has key `k` does not change the map's
value at `k`. -/
theorem readAux_lookup_stable
    (ls : List Str) (m m' : List (Str × Str)) (k : Str)
    (hok : Sysconfig.readAux ls m = .ok m')
    (hk : ∀ l ∈ ls, ∀ p, splitOnEqQuote l = some p → p.1 ≠ k) :
    lookupKV k m' = lookupKV k m := by
  induction ls generalizing m with
  | nil =>
    simp only [Sysconfig.readAux] at hok
    cases hok
    rfl
  | cons line rest ih =>
    have hkrest : ∀ l ∈ rest, ∀ p, splitOnEqQuote l = some p → p.1 ≠ k :=
      fun l hl => hk l (List.mem_cons_of_mem line hl)
    by_cases he : line.isEmpty
    · simp only [Sysconfig.readAux, he, if_true] at hok
      exact ih m hok hkrest
    · simp only [Sysconfig.readAux, he, if_false] at hok
      cases hs : splitOnEqQuote line with
      | some kv =>
        rw [hs] at hok
        have hne : kv.1 ≠ k := hk line (List.mem_cons_self line rest) kv hs
        calc lookupKV k m'
            = lookupKV k (insertKV kv.1 (strip_after_quote kv.2) m) := ih _ hok hkrest
          _ = lookupKV k m := lookupKV_insertKV_ne _ m hne
      | none => rw [hs] at hok; cases hok

/-! ## Claim theorems -/

/-- C3: for every whitelist and normalized host, the wildcard step bypasses
the proxy (the `any` returns `true`) exactly when some pattern decomposes
as `pre ++ '*' :: suf` where `suf`, the substring strictly after the
pattern's rightmost `'*'`, is non-empty and the host ends with `suf`; a
pattern whose rightmost `'*'` is its final character never matches; and the
result is a logical OR over the patterns, invariant under permutation of
the whitelist. -/
theorem wildcard_step_characterization (w : List Str) (host : Str) :
    (wildcardBypass w host = true ↔
      ∃ p ∈ w, ∃ pre suf : Str,
        p = pre ++ '*' :: suf ∧ suf ≠ [] ∧ '*' ∉ suf ∧ suf <:+ host) ∧
    (∀ p pre : Str, p = pre ++ ['*'] → wildcardMatch host p = false) ∧
    (∀ w' : List Str, w.Perm w' →
      wildcardBypass w host = wildcardBypass w' host) := by
  have hmatch : ∀ p : Str, wildcardMatch host p = true ↔
      ∃ pre suf : Str,
        p = pre ++ '*' :: suf ∧ suf ≠ [] ∧ '*' ∉ suf ∧ suf <:+ host := by
    intro p
    unfold wildcardMatch
    cases h : suffixAfterLastStar p with
    | none =>
      simp only [Bool.false_eq_true, false_iff]
      rintro ⟨pre, suf, rfl, hne, hns, hsuf⟩
      rw [suffixAfterLastStar_append pre hns] at h
      cases h
    | some s =>
      obtain ⟨pre0, hp0, hns0⟩ := suffixAfterLastStar_eq_some.mp h
      simp only [Bool.and_eq_true, Bool.not_eq_true', List.isEmpty_eq_false,
        List.isSuffixOf_iff_suffix]
      constructor
      · rintro ⟨hne, hsuf⟩
        exact ⟨pre0, s, hp0, hne, hns0, hsuf⟩
      · rintro ⟨pre, suf, rfl, hne, hns, hsuf⟩
        have h2 := suffixAfterLastStar_append pre hns
        rw [h] at h2
        cases h2
        exact ⟨hne, hsuf⟩
  refine ⟨?_, ?_, ?_⟩
  · unfold wildcardBypass
    simp only [List.any_eq_true]
    constructor
    · rintro ⟨p, hp, hm⟩
      exact ⟨p, hp, (hmatch p).mp hm⟩
    · rintro ⟨p, hp, hrest⟩
      exact ⟨p, hp, (hmatch p).mpr hrest⟩
  · rintro p pre rfl
    have h := @suffixAfterLastStar_append pre [] (by simp)
    simp [wildcardMatch, h]
  · intro w' hperm
    rw [Bool.eq_iff_iff]
    unfold wildcardBypass
    simp only [List.any_eq_true]
    constructor
    · rintro ⟨p, hp, hm⟩
      exact ⟨p, hperm.mem_iff.mp hp, hm⟩
    · rintro ⟨p, hp, hm⟩
      exact ⟨p, hperm.mem_iff.mpr hp, hm⟩

/-- Witness for C3 at concrete inputs: `*.example.com` bypasses
`a.example.com`, `foo*` (rightmost star final) matches nothing, and the
whitelist order does not matter. -/
theorem wildcard_step_characterization_witness :
    wildcardBypass ["*.example.com".toList, "x.y".toList]
        "a.example.com".toList = true ∧
    wildcardMatch "anything.xyz".toList "foo*".toList = false ∧
    wildcardBypass ["*.example.com".toList, "x.y".toList]
        "a.example.com".toList =
      wildcardBypass ["x.y".toList, "*.example.com".toList]
        "a.example.com".toList := by
  obtain ⟨h1, h2, h3⟩ :=
    wildcard_step_characterization ["*.example.com".toList, "x.y".toList]
      "a.example.com".toList
  refine ⟨?_, ?_, ?_⟩
  · exact h1.mpr ⟨"*.example.com".toList, by decide,
      [], ".example.com".toList, by decide, by decide, by decide, by decide⟩
  · exact h2 "foo*".toList "foo".toList (by decide)
  · exact h3 ["x.y".toList, "*.example.com".toList] (by decide)

/-- C5: the Matcher first normalizes the host — the URL's host component
when the destination parses, the whole destination string otherwise (an
unparseable destination degrades gracefully, it never faults), lowercased —
and then bypasses when `exclude_simple` holds and the host contains no dot,
or when the host is exactly a whitelist member. -/
theorem matcher_normalization_and_early_bypass
    (parseHost : Str → Option Str) (cfg : ProxyConfig) (address : Str) :
    (∀ h : Str, parseHost address = some h →
      use_proxy_for_address parseHost cfg address =
        hostDecision cfg (toLower h)) ∧
    (parseHost address = none →
      use_proxy_for_address parseHost cfg address =
        hostDecision cfg (toLower address)) ∧
    (∀ host : Str, cfg.exclude_simple = true → host.contains '.' = false →
      hostDecision cfg host = false) ∧
    (∀ host : Str, host ∈ cfg.whitelist → hostDecision cfg host = false) := by
  refine ⟨?_, ?_, ?_, ?_⟩
  · intro h hp
    simp [use_proxy_for_address, normalizeHost, hp]
  · intro hp
    simp [use_proxy_for_address, normalizeHost, hp]
  · intro host he hd
    unfold hostDecision
    rw [he, hd]
    rfl
  · intro host hmem
    have hc : cfg.whitelist.contains host = true :=
      List.elem_eq_true_of_mem hmem
    unfold hostDecision
    rw [hc]
    by_cases h1 : (cfg.exclude_simple && !(host.contains '.')) = true
    · rw [if_pos h1]
    · rw [if_neg h1, if_pos rfl]

/-- Witness for C5: a parseable uppercase destination is normalized to the
whitelisted lowercase host and bypasses; with `exclude_simple` a dotless
host bypasses. -/
theorem matcher_normalization_witness :
    use_proxy_for_address (fun _ => some "EXAMPLE.com".toList)
      ⟨[("http".toList, "1.1.1.1".toList)], ["example.com".toList], false⟩
      "http://EXAMPLE.com".toList = false ∧
    hostDecision ⟨[], [], true⟩ "localhost".toList = false := by
  obtain ⟨h1, _, _, h4⟩ :=
    matcher_normalization_and_early_bypass (fun _ => some "EXAMPLE.com".toList)
      ⟨[("http".toList, "1.1.1.1".toList)], ["example.com".toList], false⟩
      "http://EXAMPLE.com".toList
  obtain ⟨_, _, h3', _⟩ :=
    matcher_normalization_and_early_bypass (fun _ => none)
      ⟨[], [], true⟩ []
  constructor
  · rw [h1 "EXAMPLE.com".toList rfl]
    exact h4 (toLower "EXAMPLE.com".toList) (by decide)
  · exact h3' "localhost".toList rfl (by decide)

/-- C4: when no bypass rule triggered, the lookup returns the endpoint
stored under the URL's scheme, falling back to the endpoint under `"*"`
when the scheme key is absent, lowercasing the matched endpoint; when
neither key is present the result is `none` (bypass), not an error. -/
theorem scheme_lookup_fallback (parseHost : Str → Option Str)
    (cfg : ProxyConfig) (urlStr scheme : Str)
    (hup : use_proxy_for_address parseHost cfg urlStr = true) :
    (∀ e : Str, lookupKV scheme cfg.proxies = some e →
      get_proxy_for_url parseHost cfg urlStr scheme = some (toLower e)) ∧
    (lookupKV scheme cfg.proxies = none →
      ∀ e : Str, lookupKV "*".toList cfg.proxies = some e →
        get_proxy_for_url parseHost cfg urlStr scheme = some (toLower e)) ∧
    (lookupKV scheme cfg.proxies = none →
      lookupKV "*".toList cfg.proxies = none →
      get_proxy_for_url parseHost cfg urlStr scheme = none) := by
  refine ⟨?_, ?_, ?_⟩
  · intro e he
    simp [get_proxy_for_url, hup, he]
  · intro hn e he
    have he' : lookupKV ['*'] cfg.proxies = some e := he
    simp [get_proxy_for_url, hup, hn, he']
  · intro hn hs
    have hs' : lookupKV ['*'] cfg.proxies = none := hs
    simp [get_proxy_for_url, hup, hn, hs']

/-- Witness for C4, the spec's fallback example: `proxies = {"*": "9.9.9.9"}`
with no `"http"` key returns `9.9.9.9` for scheme `http`. -/
theorem scheme_lookup_fallback_witness :
    get_proxy_for_url (fun _ => some "example.com".toList)
      ⟨[("*".toList, "9.9.9.9".toList)], [], false⟩
      "http://example.com".toList "http".toList =
      some "9.9.9.9".toList := by
  have h := (scheme_lookup_fallback (fun _ => some "example.com".toList)
      ⟨[("*".toList, "9.9.9.9".toList)], [], false⟩
      "http://example.com".toList "http".toList (by decide)).2.1
    (by decide) "9.9.9.9".toList (by decide)
  exact h.trans (by decide)

/-- C2: the Aggregator iterates the sources in order; the first source
returning a non-empty configuration wins immediately (no later source
consulted); an Absent source is skipped; a faulting source is recorded as
the last fault seen and iteration continues; with no success, the result
is the last recorded fault if any source faulted and Absent otherwise. -/
theorem aggregator_policy :
    (∀ (xs ys : List (Except Error (Option ProxyConfig))) (c : ProxyConfig),
      (∀ r ∈ xs, isSuccess r = false) → c.proxies ≠ [] →
      get_proxy_config (xs ++ .ok (some c) :: ys) = .ok (some c)) ∧
    (∀ (rest : List (Except Error (Option ProxyConfig))) (last : Option Error),
      aggregateLoop (.ok none :: rest) last = aggregateLoop rest last) ∧
    (∀ (rest : List (Except Error (Option ProxyConfig))) (last : Option Error)
        (e : Error),
      aggregateLoop (.error e :: rest) last = aggregateLoop rest (some e)) ∧
    (∀ xs : List (Except Error (Option ProxyConfig)), xs ≠ [] →
      (∀ r ∈ xs, isSuccess r = false) →
      get_proxy_config xs =
        match lastFault xs with
        | some e => .error e
        | none => .ok none) := by
  refine ⟨?_, ?_, ?_, ?_⟩
  · intro xs ys c h _
    have hne : (xs ++ Except.ok (some c) :: ys).isEmpty = false := by
      cases xs <;> rfl
    unfold get_proxy_config
    rw [hne, if_neg (by simp)]
    exact aggregateLoop_first_success xs ys c none h
  · intro rest last
    rfl
  · intro rest last e
    rfl
  · intro xs hne h
    have hie : xs.isEmpty = false := by
      cases xs with
      | nil => exact absurd rfl hne
      | cons a l => rfl
    unfold get_proxy_config
    rw [hie, if_neg (by simp)]
    exact aggregateLoop_no_success xs none h

/-- Witness for C2: a skipped Absent source and a recorded fault before a
success; and the last fault surfacing when no source succeeds. -/
theorem aggregator_policy_witness :
    get_proxy_config [.ok none, .error .io,
        .ok (some ⟨[("http".toList, "p".toList)], [], false⟩)] =
      .ok (some ⟨[("http".toList, "p".toList)], [], false⟩) ∧
    get_proxy_config [.ok none, .error .invalidConfig, .error .io] =
      .error .io := by
  obtain ⟨h1, _, _, h4⟩ := aggregator_policy
  constructor
  · exact h1 [.ok none, .error .io] []
      ⟨[("http".toList, "p".toList)], [], false⟩ (by decide) (by decide)
  · exact h4 [.ok none, .error .invalidConfig, .error .io]
      (by decide) (by decide)

/-- C9: resolution is deterministic — resolving twice against the same
environment snapshot and the same file contents yields equal results
(including equal Absent/fault outcomes), the resolver being a pure
function of its inputs in this embedding. -/
theorem resolution_deterministic (vars₁ vars₂ : List (Str × Str))
    (file₁ file₂ : Option (List Str))
    (hv : vars₁ = vars₂) (hf : file₁ = file₂) :
    resolve vars₁ file₁ = resolve vars₂ file₂ := by
  rw [hv, hf]

/-- Witness for C9 at a concrete snapshot. -/
theorem resolution_deterministic_witness :
    resolve [("HTTP_PROXY".toList, "1.1.1.1".toList)]
        (some ["PROXY_ENABLED=\"no\"".toList]) =
      resolve [("HTTP_PROXY".toList, "1.1.1.1".toList)]
        (some ["PROXY_ENABLED=\"no\"".toList]) :=
  resolution_deterministic _ _ _ _ rfl rfl

/-- Variables whose lowercased name ends in `_proxy` only with scheme token
`"no"` never touch the `proxies` map. -/
theorem env_foldl_proxies_of_no_only (vars : List (Str × Str))
    (cfg : ProxyConfig)
    (h : ∀ kv ∈ vars, List.isSuffixOf "_proxy".toList (toLower kv.1) = true →
      (toLower kv.1).take ((toLower kv.1).length - 6) = "no".toList) :
    (vars.foldl Env.step cfg).proxies = cfg.proxies := by
  induction vars generalizing cfg with
  | nil => rfl
  | cons kv rest ih =>
    have hkv := h kv (List.mem_cons_self kv rest)
    have hrest : ∀ kv' ∈ rest,
        List.isSuffixOf "_proxy".toList (toLower kv'.1) = true →
        (toLower kv'.1).take ((toLower kv'.1).length - 6) = "no".toList :=
      fun kv' h' => h kv' (List.mem_cons_of_mem kv h')
    rw [List.foldl_cons, ih _ hrest]
    unfold Env.step
    by_cases hs : List.isSuffixOf "_proxy".toList (toLower kv.1) = true
    · rw [if_pos hs, if_pos (hkv hs)]
    · rw [if_neg hs]

/-- C8: over any snapshot of name/value pairs, a name ending in `_PROXY`
(case-insensitively) with scheme token `"no"` adds to the whitelist exactly
the comma-split, trimmed, non-empty, lowercased pieces of its value; any
other `_PROXY` name inserts its suffix-stripped, lowercased scheme token
with the raw value into `proxies`; the result is Absent exactly when the
accumulated `proxies` map is empty (a snapshot whose `_PROXY` names all
carry token `"no"` yields Absent) and Success with the accumulated
configuration otherwise. -/
theorem env_source_characterization :
    (∀ vars : List (Str × Str),
      Env.get_proxy_config vars = .ok none ↔
        (vars.foldl Env.step defaultConfig).proxies = []) ∧
    (∀ vars : List (Str × Str),
      (vars.foldl Env.step defaultConfig).proxies ≠ [] →
      Env.get_proxy_config vars =
        .ok (some (vars.foldl Env.step defaultConfig))) ∧
    (∀ (cfg : ProxyConfig) (k v : Str),
      List.isSuffixOf "_proxy".toList (toLower k) = true →
      (toLower k).take ((toLower k).length - 6) = "no".toList →
      Env.step cfg (k, v) =
        { cfg with
          whitelist :=
            ((((splitOnChar ',' v).map trimStr).filter
                (fun p => !p.isEmpty)).map toLower).foldl
              (fun wl u => insertW u wl) cfg.whitelist }) ∧
    (∀ (cfg : ProxyConfig) (k v : Str),
      List.isSuffixOf "_proxy".toList (toLower k) = true →
      (toLower k).take ((toLower k).length - 6) ≠ "no".toList →
      Env.step cfg (k, v) =
        { cfg with
          proxies :=
            insertKV (toLower ((toLower k).take ((toLower k).length - 6)))
              v cfg.proxies }) ∧
    (∀ vars : List (Str × Str),
      (∀ kv ∈ vars, List.isSuffixOf "_proxy".toList (toLower kv.1) = true →
        (toLower kv.1).take ((toLower kv.1).length - 6) = "no".toList) →
      Env.get_proxy_config vars = .ok none) := by
  refine ⟨?_, ?_, ?_, ?_, ?_⟩
  · intro vars
    cases h : (vars.foldl Env.step defaultConfig).proxies.isEmpty with
    | true => simp [Env.get_proxy_config, h, List.isEmpty_iff.mp h]
    | false =>
      have hne : (vars.foldl Env.step defaultConfig).proxies ≠ [] := by
        intro hh
        rw [hh] at h
        cases h
      simp [Env.get_proxy_config, h, hne]
  · intro vars hne
    have h : (vars.foldl Env.step defaultConfig).proxies.isEmpty = false := by
      cases h2 : (vars.foldl Env.step defaultConfig).proxies.isEmpty with
      | true => exact absurd (List.isEmpty_iff.mp h2) hne
      | false => rfl
    simp [Env.get_proxy_config, h]
  · intro cfg k v hs hno
    unfold Env.step
    rw [if_pos hs, if_pos hno, env_whitelist_fusion]
  · intro cfg k v hs hno
    unfold Env.step
    rw [if_pos hs, if_neg hno]
  · intro vars h
    have hp : (vars.foldl Env.step defaultConfig).proxies = [] :=
      env_foldl_proxies_of_no_only vars defaultConfig h
    simp [Env.get_proxy_config, hp]

/-- Witness for C8: a `NO_PROXY`-only snapshot is Absent; `HTTP_PROXY`
yields Success with scheme `http`; `NO_PROXY` splitting trims, drops empty
pieces and lowercases. -/
theorem env_source_characterization_witness :
    Env.get_proxy_config [("NO_PROXY".toList, "a.com, b.com".toList)] =
      .ok none ∧
    Env.get_proxy_config [("HTTP_PROXY".toList, "1.1.1.1".toList)] =
      .ok (some ⟨[("http".toList, "1.1.1.1".toList)], [], false⟩) ∧
    Env.step defaultConfig ("NO_PROXY".toList, " A.com ,, b.COM".toList) =
      { defaultConfig with
        whitelist := ["a.com".toList, "b.com".toList] } := by
  obtain ⟨h1, h2, h3, h4, h5⟩ := env_source_characterization
  refine ⟨?_, ?_, ?_⟩
  · exact h5 [("NO_PROXY".toList, "a.com, b.com".toList)] (by decide)
  · exact (h2 [("HTTP_PROXY".toList, "1.1.1.1".toList)] (by decide)).trans
      (by decide)
  · exact (h3 defaultConfig "NO_PROXY".toList " A.com ,, b.COM".toList
      (by decide) (by decide)).trans (by decide)

/-- A scheme whose `<SCHEME>_PROXY` key is absent leaves the config
unchanged. -/
theorem addScheme_skip {m : List (Str × Str)} {cfg : ProxyConfig} {s : Str}
    (h : lookupKV (s ++ "_PROXY".toList) m = none) :
    Sysconfig.addScheme m cfg s = cfg := by
  unfold Sysconfig.addScheme
  rw [h]

/-- An absent `NO_PROXY` key leaves the config unchanged. -/
theorem addNoProxy_skip {m : List (Str × Str)} {cfg : ProxyConfig}
    (h : lookupKV "NO_PROXY".toList m = none) :
    Sysconfig.addNoProxy m cfg = cfg := by
  unfold Sysconfig.addNoProxy
  rw [h]

/-- Reduction of the file source on a present file. -/
theorem sysconfig_from_some (lines : List Str) :
    Sysconfig.get_proxy_config_from_file (some lines) =
      match Sysconfig.read_key_value_pairs lines with
      | .error e => .error e
      | .ok map =>
        match lookupKV "PROXY_ENABLED".toList map with
        | some enabled =>
          if enabled = "yes".toList then
            .ok (some (Sysconfig.buildConfig map))
          else if enabled = "no".toList then .ok none
          else .error .invalidConfig
        | none => .error .invalidConfig := rfl

/-- Reduction of the file source on a present, successfully parsed file. -/
theorem sysconfig_from_some_ok {lines : List Str} {m : List (Str × Str)}
    (hm : Sysconfig.read_key_value_pairs lines = .ok m) :
    Sysconfig.get_proxy_config_from_file (some lines) =
      match lookupKV "PROXY_ENABLED".toList m with
      | some enabled =>
        if enabled = "yes".toList then
          .ok (some (Sysconfig.buildConfig m))
        else if enabled = "no".toList then .ok none
        else .error .invalidConfig
      | none => .error .invalidConfig := by
  rw [sysconfig_from_some, hm]

/-- C6: for the file-format source, a missing file path yields Absent (not
a fault); after successful parsing, `PROXY_ENABLED="no"` yields Absent with
all other keys ignored, `"yes"` continues resolution (Success with the
accumulated configuration), and any other value or a missing
`PROXY_ENABLED` key yields an InvalidConfig fault. -/
theorem sysconfig_enabled_dispatch :
    (Sysconfig.get_proxy_config_from_file none = .ok none) ∧
    (∀ (lines : List Str) (m : List (Str × Str)),
      Sysconfig.read_key_value_pairs lines = .ok m →
      ((lookupKV "PROXY_ENABLED".toList m = some "no".toList →
          Sysconfig.get_proxy_config_from_file (some lines) = .ok none) ∧
       (lookupKV "PROXY_ENABLED".toList m = some "yes".toList →
          Sysconfig.get_proxy_config_from_file (some lines) =
            .ok (some (Sysconfig.buildConfig m))) ∧
       (∀ v : Str, lookupKV "PROXY_ENABLED".toList m = some v →
          v ≠ "yes".toList → v ≠ "no".toList →
          Sysconfig.get_proxy_config_from_file (some lines) =
            .error .invalidConfig) ∧
       (lookupKV "PROXY_ENABLED".toList m = none →
          Sysconfig.get_proxy_config_from_file (some lines) =
            .error .invalidConfig))) := by
  refine ⟨rfl, ?_⟩
  intro lines m hm
  refine ⟨?_, ?_, ?_, ?_⟩
  · intro h
    rw [sysconfig_from_some_ok hm, h]
    rfl
  · intro h
    rw [sysconfig_from_some_ok hm, h]
    rfl
  · intro v h hv1 hv2
    rw [sysconfig_from_some_ok hm, h]
    show (if v = "yes".toList then _ else if v = "no".toList then _ else _) = _
    rw [if_neg hv1, if_neg hv2]
  · intro h
    rw [sysconfig_from_some_ok hm, h]

/-- Witness for C6 on concrete files: disabled file with well-formed proxy
keys is Absent; `PROXY_ENABLED="maybe"` and a missing `PROXY_ENABLED` both
fault with InvalidConfig. -/
theorem sysconfig_enabled_dispatch_witness :
    Sysconfig.get_proxy_config_from_file
        (some ["PROXY_ENABLED=\"no\"".toList,
               "HTTP_PROXY=\"http://1.2.3.4\"".toList]) = .ok none ∧
    Sysconfig.get_proxy_config_from_file
        (some ["PROXY_ENABLED=\"maybe\"".toList]) = .error .invalidConfig ∧
    Sysconfig.get_proxy_config_from_file
        (some ["HTTP_PROXY=\"http://1.2.3.4\"".toList]) =
      .error .invalidConfig := by
  have hd := sysconfig_enabled_dispatch
  refine ⟨?_, ?_, ?_⟩
  · exact (hd.2 ["PROXY_ENABLED=\"no\"".toList,
      "HTTP_PROXY=\"http://1.2.3.4\"".toList]
      [("PROXY_ENABLED".toList, "no".toList),
       ("HTTP_PROXY".toList, "http://1.2.3.4".toList)] (by decide)).1
      (by decide)
  · exact (hd.2 ["PROXY_ENABLED=\"maybe\"".toList]
      [("PROXY_ENABLED".toList, "maybe".toList)] (by decide)).2.2.1
      "maybe".toList (by decide) (by decide) (by decide)
  · exact (hd.2 ["HTTP_PROXY=\"http://1.2.3.4\"".toList]
      [("HTTP_PROXY".toList, "http://1.2.3.4".toList)] (by decide)).2.2.2
      (by decide)

/-- C7: blank lines are skipped anywhere; a non-blank line containing `="`
yields the key before its first `="` and the value up to the next `'"'`
(or to end of line when no closing quote exists); a non-blank line with no
`="` sequence fails the whole file immediately with InvalidConfig,
independent of other well-formed lines.  `containsEqQuote` is exactly
"contains the sequence `=\x22`". -/
theorem file_parser_grammar :
    (∀ cs : Str,
      containsEqQuote cs = true ↔ ∃ a b : Str, cs = a ++ '=' :: '"' :: b) ∧
    (∀ ls₁ ls₂ : List Str,
      Sysconfig.read_key_value_pairs (ls₁ ++ [] :: ls₂) =
        Sysconfig.read_key_value_pairs (ls₁ ++ ls₂)) ∧
    (∀ (acc : List (Str × Str)) (rest : List Str) (k v junk : Str),
      containsEqQuote k = false → '"' ∉ v →
      Sysconfig.readAux ((k ++ '=' :: '"' :: (v ++ '"' :: junk)) :: rest)
          acc =
        Sysconfig.readAux rest (insertKV k v acc)) ∧
    (∀ (acc : List (Str × Str)) (rest : List Str) (k v : Str),
      containsEqQuote k = false → '"' ∉ v →
      Sysconfig.readAux ((k ++ '=' :: '"' :: v) :: rest) acc =
        Sysconfig.readAux rest (insertKV k v acc)) ∧
    (∀ (ls₁ : List Str) (line : Str) (rest : List Str)
        (m : List (Str × Str)),
      Sysconfig.read_key_value_pairs ls₁ = .ok m →
      line ≠ [] → containsEqQuote line = false →
      Sysconfig.read_key_value_pairs (ls₁ ++ line :: rest) =
        .error .invalidConfig) := by
  refine ⟨fun cs => containsEqQuote_iff, ?_, ?_, ?_, ?_⟩
  · intro ls₁ ls₂
    unfold Sysconfig.read_key_value_pairs
    rw [readAux_append, readAux_append]
    cases Sysconfig.readAux ls₁ [] with
    | ok m => rfl
    | error e => rfl
  · intro acc rest k v junk hk hv
    have hne : (k ++ '=' :: '"' :: (v ++ '"' :: junk)).isEmpty = false := by
      cases k <;> rfl
    show (if (k ++ '=' :: '"' :: (v ++ '"' :: junk)).isEmpty = true then
        Sysconfig.readAux rest acc
      else
        match splitOnEqQuote (k ++ '=' :: '"' :: (v ++ '"' :: junk)) with
        | some (key, tail) =>
          Sysconfig.readAux rest (insertKV key (strip_after_quote tail) acc)
        | none => .error .invalidConfig) = _
    rw [hne, if_neg (by simp), splitOnEqQuote_append hk]
    show Sysconfig.readAux rest
        (insertKV k (strip_after_quote (v ++ '"' :: junk)) acc) = _
    rw [strip_after_quote_append hv]
  · intro acc rest k v hk hv
    have hne : (k ++ '=' :: '"' :: v).isEmpty = false := by
      cases k <;> rfl
    show (if (k ++ '=' :: '"' :: v).isEmpty = true then
        Sysconfig.readAux rest acc
      else
        match splitOnEqQuote (k ++ '=' :: '"' :: v) with
        | some (key, tail) =>
          Sysconfig.readAux rest (insertKV key (strip_after_quote tail) acc)
        | none => .error .invalidConfig) = _
    rw [hne, if_neg (by simp), splitOnEqQuote_append hk]
    show Sysconfig.readAux rest (insertKV k (strip_after_quote v) acc) = _
    rw [strip_after_quote_of_no_quote hv]
  · intro ls₁ line rest m hok hne hq
    unfold Sysconfig.read_key_value_pairs at hok ⊢
    rw [readAux_append, hok]
    have hie : line.isEmpty = false := by
      cases line with
      | nil => exact absurd rfl hne
      | cons c l => rfl
    show (if line.isEmpty = true then Sysconfig.readAux rest m
      else
        match splitOnEqQuote line with
        | some (key, tail) =>
          Sysconfig.readAux rest (insertKV key (strip_after_quote tail) m)
        | none => .error .invalidConfig) = _
    rw [hie, if_neg (by simp), splitOnEqQuote_eq_none hq]

/-- Witness for C7: a concrete file whose third line lacks `="` faults even
though the others are well-formed; blank lines are skipped; unclosed
values run to end of line. -/
theorem file_parser_grammar_witness :
    containsEqQuote "baz quux".toList = false ∧
    Sysconfig.read_key_value_pairs
        ["foo=\"bar\"".toList, [], "baz quux".toList] =
      .error .invalidConfig ∧
    Sysconfig.readAux ["HTTP_PROXY=\"1.2.3.4\" junk".toList] [] =
      Sysconfig.readAux []
        (insertKV "HTTP_PROXY".toList "1.2.3.4".toList []) ∧
    Sysconfig.readAux ["A=\"open".toList] [] =
      Sysconfig.readAux [] (insertKV "A".toList "open".toList []) := by
  obtain ⟨h1, h2, h3, h4, h5⟩ := file_parser_grammar
  refine ⟨by decide, ?_, ?_, ?_⟩
  · have := h5 ["foo=\"bar\"".toList, []] "baz quux".toList []
      (insertKV "foo".toList "bar".toList []) (by decide) (by decide)
      (by decide)
    exact this
  · exact h3 [] [] "HTTP_PROXY".toList "1.2.3.4".toList " junk".toList
      (by decide) (by decide)
  · exact h4 [] [] "A".toList "open".toList (by decide) (by decide)

/-- C10: when the same key appears on multiple non-blank lines, the last
such line's value is kept: the map insert overwrites, appending a
well-formed line with key `k` makes the resulting map send `k` to that
line's value, and processing lines whose key differs from `k` never
changes the value at `k`. -/
theorem file_parser_last_wins :
    (∀ (k v : Str) (m : List (Str × Str)),
      lookupKV k (insertKV k v m) = some v) ∧
    (∀ (ls : List Str) (m : List (Str × Str)) (k v : Str),
      Sysconfig.read_key_value_pairs ls = .ok m →
      containsEqQuote k = false → '"' ∉ v →
      Sysconfig.read_key_value_pairs
          (ls ++ [k ++ '=' :: '"' :: (v ++ ['"'])]) =
        .ok (insertKV k v m)) ∧
    (∀ (ls₂ : List Str) (m m' : List (Str × Str)) (k : Str),
      Sysconfig.readAux ls₂ m = .ok m' →
      (∀ l ∈ ls₂, ∀ p : Str × Str, splitOnEqQuote l = some p → p.1 ≠ k) →
      lookupKV k m' = lookupKV k m) := by
  refine ⟨fun k v m => lookupKV_insertKV_self k v m, ?_,
    fun ls₂ m m' k h1 h2 => readAux_lookup_stable ls₂ m m' k h1 h2⟩
  intro ls m k v hok hk hv
  unfold Sysconfig.read_key_value_pairs at hok ⊢
  rw [readAux_append, hok]
  have hne : (k ++ '=' :: '"' :: (v ++ ['"'])).isEmpty = false := by
    cases k <;> rfl
  show (if (k ++ '=' :: '"' :: (v ++ ['"'])).isEmpty = true then
      Sysconfig.readAux [] m
    else
      match splitOnEqQuote (k ++ '=' :: '"' :: (v ++ ['"'])) with
      | some (key, tail) =>
        Sysconfig.readAux [] (insertKV key (strip_after_quote tail) m)
      | none => .error .invalidConfig) = _
  rw [hne, if_neg (by simp), splitOnEqQuote_append hk]
  show Sysconfig.readAux []
      (insertKV k (strip_after_quote (v ++ ['"'])) m) = _
  rw [strip_after_quote_append hv]
  rfl

/-- Witness for C10: a later `PROXY_ENABLED` line overrides an earlier
one. -/
theorem file_parser_last_wins_witness :
    Sysconfig.read_key_value_pairs
        ["PROXY_ENABLED=\"no\"".toList, "PROXY_ENABLED=\"yes\"".toList] =
      .ok (insertKV "PROXY_ENABLED".toList "yes".toList
        (insertKV "PROXY_ENABLED".toList "no".toList [])) ∧
    lookupKV "PROXY_ENABLED".toList
        (insertKV "PROXY_ENABLED".toList "yes".toList
          (insertKV "PROXY_ENABLED".toList "no".toList [])) =
      some "yes".toList := by
  obtain ⟨h1, h2, _⟩ := file_parser_last_wins
  constructor
  · exact h2 ["PROXY_ENABLED=\"no\"".toList]
      (insertKV "PROXY_ENABLED".toList "no".toList [])
      "PROXY_ENABLED".toList "yes".toList (by decide) (by decide) (by decide)
  · exact h1 "PROXY_ENABLED".toList "yes".toList
      (insertKV "PROXY_ENABLED".toList "no".toList [])

/-- C1 counterexample: a sysconfig file consisting of the single line
`PROXY_ENABLED="yes"` is surfaced by the file source as Success with an
empty `proxies` map — not as Absent, contrary to the claimed invariant. -/
theorem empty_proxies_counterexample :
    Sysconfig.get_proxy_config_from_file
        (some ["PROXY_ENABLED=\"yes\"".toList]) =
      .ok (some { proxies := [], whitelist := [],
                  exclude_simple := false }) ∧
    Sysconfig.get_proxy_config_from_file
        (some ["PROXY_ENABLED=\"yes\"".toList]) ≠ .ok none :=
  ⟨by decide, by decide⟩

/-- C1 amended: the environment source never surfaces a Success with an
empty `proxies` map (an empty accumulation is returned as Absent), but the
sysconfig file source does surface one: with `PROXY_ENABLED="yes"` and no
`HTTP_PROXY`/`HTTPS_PROXY`/`FTP_PROXY` (nor `NO_PROXY`) key it returns
Success with an empty `proxies` map. -/
theorem empty_proxies_amended :
    (∀ (vars : List (Str × Str)) (c : ProxyConfig),
      Env.get_proxy_config vars = .ok (some c) → c.proxies ≠ []) ∧
    (∀ (lines : List Str) (m : List (Str × Str)),
      Sysconfig.read_key_value_pairs lines = .ok m →
      lookupKV "PROXY_ENABLED".toList m = some "yes".toList →
      lookupKV "HTTP_PROXY".toList m = none →
      lookupKV "HTTPS_PROXY".toList m = none →
      lookupKV "FTP_PROXY".toList m = none →
      lookupKV "NO_PROXY".toList m = none →
      Sysconfig.get_proxy_config_from_file (some lines) =
        .ok (some { proxies := [], whitelist := [],
                    exclude_simple := false })) := by
  constructor
  · intro vars c h
    have h' : (if (vars.foldl Env.step defaultConfig).proxies.isEmpty then
          (Except.ok none : Except Error (Option ProxyConfig))
        else .ok (some (vars.foldl Env.step defaultConfig))) =
        .ok (some c) := h
    cases he : (vars.foldl Env.step defaultConfig).proxies.isEmpty with
    | true =>
      rw [he, if_pos rfl] at h'
      cases h'
    | false =>
      rw [he, if_neg (by simp)] at h'
      simp only [Except.ok.injEq, Option.some.injEq] at h'
      rw [← h']
      intro hnil
      simp [hnil] at he
  · intro lines m hok hpe h1 h2 h3 h4
    have e1 : ("HTTP".toList ++ "_PROXY".toList : Str) =
        "HTTP_PROXY".toList := by decide
    have e2 : ("HTTPS".toList ++ "_PROXY".toList : Str) =
        "HTTPS_PROXY".toList := by decide
    have e3 : ("FTP".toList ++ "_PROXY".toList : Str) =
        "FTP_PROXY".toList := by decide
    have hb : Sysconfig.buildConfig m = defaultConfig := by
      unfold Sysconfig.buildConfig
      rw [List.foldl_cons, addScheme_skip (by rw [e1]; exact h1),
        List.foldl_cons, addScheme_skip (by rw [e2]; exact h2),
        List.foldl_cons, addScheme_skip (by rw [e3]; exact h3),
        List.foldl_nil, addNoProxy_skip h4]
    rw [sysconfig_from_some_ok hok, hpe]
    show (if ("yes".toList : Str) = "yes".toList then
        Except.ok (some (Sysconfig.buildConfig m))
      else if ("yes".toList : Str) = "no".toList then .ok none
      else .error .invalidConfig) = _
    rw [if_pos rfl, hb]
    rfl

/-- Witness for the amended C1: a concrete env snapshot whose Success has
a non-empty proxies map, and the concrete one-line sysconfig file whose
Success has an empty one. -/
theorem empty_proxies_amended_witness :
    ((⟨[("http".toList, "1.1.1.1".toList)], [], false⟩ :
        ProxyConfig).proxies ≠ []) ∧
    Sysconfig.get_proxy_config_from_file
        (some ["PROXY_ENABLED=\"yes\"".toList]) =
      .ok (some { proxies := [], whitelist := [],
                  exclude_simple := false }) := by
  obtain ⟨h1, h2⟩ := empty_proxies_amended
  constructor
  · exact h1 [("HTTP_PROXY".toList, "1.1.1.1".toList)]
      ⟨[("http".toList, "1.1.1.1".toList)], [], false⟩ (by decide)
  · exact h2 ["PROXY_ENABLED=\"yes\"".toList]
      [("PROXY_ENABLED".toList, "yes".toList)] (by decide) (by decide)
      (by decide) (by decide) (by decide) (by decide)
